import Mathlib

/-!
Verification of the Iris / XGBoost hyperparameter-tuning notebook
(`amazon-sagemaker-amt-xgboost-hyperparameter-tuning.ipynb`).

The notebook is a linear pipeline: load the Iris table, split it
80/10/10 with `train_test_split` (seed 42, test_size 0.2, then 0.5),
export the train and validation partitions as header-less, index-less
CSV, upload them to object storage, assemble the tuning-job and
training-job configuration records, and submit one
`create_hyper_parameter_tuning_job` request named "IrisHPO".

The external split utility and the CSV writer are library code; they are
embedded here from their documented contracts (ceil-sized test fraction
over a seed-determined shuffle; comma-separated decimal cells, one line
per row).  The configuration records are embedded field by field from
the notebook source.
-/

namespace IrisHpo

/-! ### Decimal cells and their text form

The table cells are numeric.  A cell is modelled as a scaled decimal
(`mant / 10 ^ nfrac`), the exact values the CSV text denotes.  `renderDec`
produces the decimal text of a cell and `parseDec` reads it back. -/

/-- The character of a decimal digit `d < 10`. -/
def digitChar (d : Nat) : Char := Char.ofNat (48 + d)

/-- Is `c` one of the characters `0`–`9`? -/
def isDigitCh (c : Char) : Bool := 48 ≤ c.toNat && c.toNat ≤ 57

/-- The numeric value of a digit character. -/
def charVal (c : Char) : Nat := c.toNat - 48

/-- The decimal digits of `n`, most significant first, no leading zeros
(except for `"0"` itself). -/
def natToDigits (n : Nat) : List Char :=
  if n < 10 then [digitChar n]
  else natToDigits (n / 10) ++ [digitChar (n % 10)]
termination_by n
decreasing_by
  exact Nat.div_lt_self (by omega) (by omega)

/-- Exactly `k` decimal digits of `n` (with leading zeros), most
significant first. -/
def padDigits : Nat → Nat → List Char
  | 0, _ => []
  | k + 1, n => padDigits k (n / 10) ++ [digitChar (n % 10)]

/-- Value of a most-significant-first digit string. -/
def digitsVal (l : List Char) : Nat :=
  l.foldl (fun a c => a * 10 + charVal c) 0

/-- A scaled decimal number: the value `mant / 10 ^ nfrac`. -/
structure DecNum where
  mant : Int
  nfrac : Nat
deriving DecidableEq

/-- Unsigned decimal text of the magnitude `a / 10 ^ k`: integer digits,
and — when `k > 0` — a dot and exactly `k` fractional digits. -/
def renderDecNN (a k : Nat) : List Char :=
  if k = 0 then natToDigits a
  else natToDigits (a / 10 ^ k) ++ ['.'] ++ padDigits k (a % 10 ^ k)

/-- Decimal text of a cell, as the CSV writer emits it: optional minus
sign followed by the unsigned decimal text of the magnitude. -/
def renderDec (d : DecNum) : List Char :=
  if d.mant < 0 then '-' :: renderDecNN d.mant.natAbs d.nfrac
  else renderDecNN d.mant.natAbs d.nfrac

/-- Splitting worker: first part before any occurrence of `c`, and the
remaining parts after each occurrence. -/
def splitOnCharAux (c : Char) : List Char → List Char × List (List Char)
  | [] => ([], [])
  | a :: rest =>
    let p := splitOnCharAux c rest
    if a = c then ([], p.1 :: p.2) else (a :: p.1, p.2)

/-- Split a character list at every occurrence of `c` (the separators are
dropped; `n` separators yield `n + 1` parts). -/
def splitOnChar (c : Char) (l : List Char) : List (List Char) :=
  (splitOnCharAux c l).1 :: (splitOnCharAux c l).2

/-- Join parts with the separator `c` between consecutive parts. -/
def joinWith (c : Char) : List (List Char) → List Char
  | [] => []
  | [x] => x
  | x :: y :: t => x ++ c :: joinWith c (y :: t)

/-- Parse an unsigned digit string. -/
def parseNatDigits (l : List Char) : Option Nat :=
  if l ≠ [] && l.all isDigitCh then some (digitsVal l) else none

/-- Parse the unsigned body of a decimal cell: digits with at most one
dot; returns the scaled magnitude and the number of fractional digits. -/
def parseDecCore (l : List Char) : Option (Nat × Nat) :=
  match splitOnChar '.' l with
  | [ints] => (parseNatDigits ints).map (fun n => (n, 0))
  | [ints, fr] =>
    match parseNatDigits ints, parseNatDigits fr with
    | some i, some f => some (i * 10 ^ fr.length + f, fr.length)
    | _, _ => none
  | _ => none

/-- Parse a decimal cell: optional leading minus, then the unsigned body. -/
def parseDec (l : List Char) : Option DecNum :=
  if l.head? = some '-' then
    (parseDecCore l.tail).map (fun p => ⟨-(p.1 : Int), p.2⟩)
  else
    (parseDecCore l).map (fun p => ⟨(p.1 : Int), p.2⟩)

/-! ### Digit lemmas -/

theorem charVal_digitChar : ∀ d, d < 10 → charVal (digitChar d) = d := by decide

theorem isDigitCh_digitChar : ∀ d, d < 10 → isDigitCh (digitChar d) = true := by decide

theorem digitChar_ne_dot : ∀ d, d < 10 → digitChar d ≠ '.' := by decide

theorem digitChar_ne_comma : ∀ d, d < 10 → digitChar d ≠ ',' := by decide

theorem digitChar_ne_newline : ∀ d, d < 10 → digitChar d ≠ '\n' := by decide

theorem digitChar_ne_minus : ∀ d, d < 10 → digitChar d ≠ '-' := by decide

theorem digitsVal_append_singleton (l : List Char) (c : Char) :
    digitsVal (l ++ [c]) = digitsVal l * 10 + charVal c := by
  simp [digitsVal, List.foldl_append]

theorem natToDigits_ne_nil (n : Nat) : natToDigits n ≠ [] := by
  rw [natToDigits]
  split <;> simp

theorem natToDigits_all_digit (n : Nat) :
    ∀ c ∈ natToDigits n, isDigitCh c = true := by
  induction n using Nat.strong_induction_on with
  | _ n ih =>
    rw [natToDigits]
    split
    · intro c hc
      simp only [List.mem_singleton] at hc
      exact hc ▸ isDigitCh_digitChar n (by omega)
    · intro c hc
      rcases List.mem_append.mp hc with h | h
      · exact ih (n / 10) (Nat.div_lt_self (by omega) (by omega)) c h
      · simp only [List.mem_singleton] at h
        exact h ▸ isDigitCh_digitChar (n % 10) (Nat.mod_lt _ (by omega))

theorem digitsVal_natToDigits (n : Nat) : digitsVal (natToDigits n) = n := by
  induction n using Nat.strong_induction_on with
  | _ n ih =>
    rw [natToDigits]
    split
    · simp [digitsVal, charVal_digitChar n (by omega)]
    · rw [digitsVal_append_singleton,
        ih (n / 10) (Nat.div_lt_self (by omega) (by omega)),
        charVal_digitChar (n % 10) (Nat.mod_lt _ (by omega))]
      omega

theorem padDigits_length (k n : Nat) : (padDigits k n).length = k := by
  induction k generalizing n with
  | zero => rfl
  | succ k ih => simp [padDigits, ih]

theorem padDigits_all_digit (k n : Nat) :
    ∀ c ∈ padDigits k n, isDigitCh c = true := by
  induction k generalizing n with
  | zero => simp [padDigits]
  | succ k ih =>
    intro c hc
    rcases List.mem_append.mp hc with h | h
    · exact ih (n / 10) c h
    · simp only [List.mem_singleton] at h
      exact h ▸ isDigitCh_digitChar (n % 10) (Nat.mod_lt _ (by omega))

theorem digitsVal_padDigits (k n : Nat) (h : n < 10 ^ k) :
    digitsVal (padDigits k n) = n := by
  induction k generalizing n with
  | zero =>
    simp only [pow_zero, Nat.lt_one_iff] at h
    simp [padDigits, digitsVal, h]
  | succ k ih =>
    have hd : n / 10 < 10 ^ k := by
      rw [Nat.div_lt_iff_lt_mul (by omega)]
      calc n < 10 ^ (k + 1) := h
        _ = 10 ^ k * 10 := by ring
    rw [padDigits, digitsVal_append_singleton, ih (n / 10) hd,
      charVal_digitChar (n % 10) (Nat.mod_lt _ (by omega))]
    omega

/-! ### Splitter lemmas -/

theorem splitOnChar_ne_nil (c : Char) (l : List Char) : splitOnChar c l ≠ [] := by
  rw [splitOnChar]
  exact List.cons_ne_nil _ _

theorem splitOnCharAux_of_not_mem (c : Char) (l : List Char) (h : c ∉ l) :
    splitOnCharAux c l = (l, []) := by
  induction l with
  | nil => rfl
  | cons a rest ih =>
    simp only [List.mem_cons, not_or] at h
    rw [splitOnCharAux]
    rw [ih h.2, if_neg (fun hh : a = c => h.1 hh.symm)]

theorem splitOnChar_of_not_mem (c : Char) (l : List Char) (h : c ∉ l) :
    splitOnChar c l = [l] := by
  rw [splitOnChar, splitOnCharAux_of_not_mem c l h]

theorem splitOnCharAux_append_cons (c : Char) (l rest : List Char) (h : c ∉ l) :
    splitOnCharAux c (l ++ c :: rest) = (l, splitOnChar c rest) := by
  induction l with
  | nil =>
    simp only [List.nil_append]
    rw [splitOnCharAux]
    simp only [if_true]
    rw [splitOnChar]
  | cons a l' ih =>
    simp only [List.mem_cons, not_or] at h
    simp only [List.cons_append]
    rw [splitOnCharAux]
    rw [ih h.2, if_neg (fun hh : a = c => h.1 hh.symm)]

theorem splitOnChar_append_cons (c : Char) (l rest : List Char) (h : c ∉ l) :
    splitOnChar c (l ++ c :: rest) = l :: splitOnChar c rest := by
  rw [splitOnChar, splitOnCharAux_append_cons c l rest h, splitOnChar]

/-! ### Round trip of a decimal cell -/

theorem parseNatDigits_natToDigits (n : Nat) :
    parseNatDigits (natToDigits n) = some n := by
  rw [parseNatDigits, if_pos, digitsVal_natToDigits]
  rw [Bool.and_eq_true, decide_eq_true_iff, List.all_eq_true]
  exact ⟨natToDigits_ne_nil n, natToDigits_all_digit n⟩

theorem parseNatDigits_padDigits (k n : Nat) (hk : 0 < k) (h : n < 10 ^ k) :
    parseNatDigits (padDigits k n) = some n := by
  rw [parseNatDigits, if_pos, digitsVal_padDigits k n h]
  rw [Bool.and_eq_true, decide_eq_true_iff, List.all_eq_true]
  refine ⟨?_, padDigits_all_digit k n⟩
  intro hnil
  have := padDigits_length k n
  rw [hnil] at this
  simp at this
  omega

theorem dot_not_mem_natToDigits (n : Nat) : '.' ∉ natToDigits n := by
  intro h
  have := natToDigits_all_digit n '.' h
  simp [isDigitCh] at this

theorem dot_not_mem_padDigits (k n : Nat) : '.' ∉ padDigits k n := by
  intro h
  have := padDigits_all_digit k n '.' h
  simp [isDigitCh] at this

theorem parseDecCore_int_digits (a : Nat) :
    parseDecCore (natToDigits a) = some (a, 0) := by
  rw [parseDecCore, splitOnChar_of_not_mem '.' _ (dot_not_mem_natToDigits a)]
  simp [parseNatDigits_natToDigits a]

theorem parseDecCore_frac (a k : Nat) (hk : 0 < k) :
    parseDecCore (natToDigits (a / 10 ^ k) ++ ['.'] ++ padDigits k (a % 10 ^ k)) =
      some (a, k) := by
  have hsplit : splitOnChar '.'
      (natToDigits (a / 10 ^ k) ++ ['.'] ++ padDigits k (a % 10 ^ k)) =
      [natToDigits (a / 10 ^ k), padDigits k (a % 10 ^ k)] := by
    rw [List.append_assoc, List.singleton_append,
      splitOnChar_append_cons '.' _ _ (dot_not_mem_natToDigits _),
      splitOnChar_of_not_mem '.' _ (dot_not_mem_padDigits _ _)]
  have hmod : a % 10 ^ k < 10 ^ k := Nat.mod_lt _ (pow_pos (by omega) k)
  rw [parseDecCore, hsplit]
  simp only [parseNatDigits_natToDigits, parseNatDigits_padDigits k _ hk hmod,
    padDigits_length]
  rw [Option.some.injEq, Prod.mk.injEq]
  exact ⟨by rw [Nat.mul_comm (a / 10 ^ k) (10 ^ k), Nat.div_add_mod], rfl⟩

theorem head_natToDigits_digit (a : Nat) :
    ∀ c, (natToDigits a).head? = some c → isDigitCh c = true := by
  intro c hc
  apply natToDigits_all_digit a
  exact List.mem_of_mem_head? hc

theorem head?_append_ne_nil {α : Type} (l1 l2 : List α) (h : l1 ≠ []) :
    (l1 ++ l2).head? = l1.head? := by
  cases l1 with
  | nil => exact absurd rfl h
  | cons a t => rfl

theorem head_digits_ne_minus (l : List Char) (hl : ∀ c ∈ l, isDigitCh c = true) :
    l.head? ≠ some '-' := by
  intro hh
  have : isDigitCh '-' = true := hl '-' (List.mem_of_mem_head? hh)
  simp [isDigitCh] at this

theorem parseDecCore_renderDecNN (a k : Nat) :
    parseDecCore (renderDecNN a k) = some (a, k) := by
  rw [renderDecNN]
  by_cases hk : k = 0
  · subst hk
    rw [if_pos rfl, parseDecCore_int_digits]
  · rw [if_neg hk, parseDecCore_frac a k (by omega)]

theorem renderDecNN_head_ne_minus (a k : Nat) :
    (renderDecNN a k).head? ≠ some '-' := by
  rw [renderDecNN]
  by_cases hk : k = 0
  · rw [if_pos hk]
    exact head_digits_ne_minus _ (natToDigits_all_digit a)
  · rw [if_neg hk, List.append_assoc, head?_append_ne_nil _ _ (natToDigits_ne_nil _)]
    exact head_digits_ne_minus _ (natToDigits_all_digit _)

theorem parseDec_renderDec (d : DecNum) : parseDec (renderDec d) = some d := by
  rcases d with ⟨m, k⟩
  rw [renderDec]
  simp only []
  by_cases hm : m < 0
  · rw [if_pos hm, parseDec]
    simp only [List.head?_cons, List.tail_cons, if_true]
    rw [parseDecCore_renderDecNN]
    simp only [Option.map_some']
    congr 1
    rw [DecNum.mk.injEq]
    exact ⟨by omega, rfl⟩
  · rw [if_neg hm, parseDec, if_neg (renderDecNN_head_ne_minus _ _),
      parseDecCore_renderDecNN]
    simp only [Option.map_some']
    congr 1
    rw [DecNum.mk.injEq]
    exact ⟨by omega, rfl⟩

/-! ### CSV rows and files

`to_csv(index=False, header=False)` writes one comma-separated line per
row and a newline after each line: no header line, no index column. -/

/-- One CSV line: the cells' decimal texts joined with commas. -/
def renderRow (r : List DecNum) : List Char := joinWith ',' (r.map renderDec)

/-- Parse a list of cell texts. -/
def parseCells : List (List Char) → Option (List DecNum)
  | [] => some []
  | x :: t =>
    match parseDec x, parseCells t with
    | some d, some ds => some (d :: ds)
    | _, _ => none

/-- Parse one CSV line into its cells. -/
def parseRow (l : List Char) : Option (List DecNum) :=
  parseCells (splitOnChar ',' l)

/-- One exported line including its terminating newline. -/
def toCsvLine (r : List DecNum) : List Char := renderRow r ++ ['\n']

/-- The full exported file: the lines of all rows, in order, nothing else
(no header line, no index column). -/
def toCsv (rows : List (List DecNum)) : List Char :=
  (rows.map toCsvLine).flatten

/-- Parse a list of lines into rows. -/
def parseRowsList : List (List Char) → Option (List (List DecNum))
  | [] => some []
  | x :: t =>
    match parseRow x, parseRowsList t with
    | some r, some rs => some (r :: rs)
    | _, _ => none

/-- Parse a CSV file: split at newlines, drop the empty trailer after the
final newline, parse each line. -/
def parseCsv (l : List Char) : Option (List (List DecNum)) :=
  parseRowsList (splitOnChar '\n' l).dropLast

/-! ### CSV lemmas -/

theorem digit_ne_comma_newline (c : Char) (h : isDigitCh c = true) :
    c ≠ ',' ∧ c ≠ '\n' := by
  constructor <;> rintro rfl <;> exact absurd h (by decide)

theorem mem_renderDecNN (a k : Nat) :
    ∀ ch ∈ renderDecNN a k, isDigitCh ch = true ∨ ch = '.' := by
  rw [renderDecNN]
  by_cases hk : k = 0
  · rw [if_pos hk]
    exact fun ch hc => Or.inl (natToDigits_all_digit a ch hc)
  · rw [if_neg hk]
    intro ch hc
    rcases List.mem_append.mp hc with hc | hc
    · rcases List.mem_append.mp hc with hc | hc
      · exact Or.inl (natToDigits_all_digit _ ch hc)
      · simp only [List.mem_singleton] at hc
        exact Or.inr hc
    · exact Or.inl (padDigits_all_digit _ _ ch hc)

theorem mem_renderDec (d : DecNum) :
    ∀ ch ∈ renderDec d, ch ≠ ',' ∧ ch ≠ '\n' := by
  intro ch hc
  have hclass : isDigitCh ch = true ∨ ch = '.' ∨ ch = '-' := by
    rw [renderDec] at hc
    split at hc
    · rcases List.mem_cons.mp hc with h | h
      · exact Or.inr (Or.inr h)
      · rcases mem_renderDecNN _ _ ch h with h' | h'
        · exact Or.inl h'
        · exact Or.inr (Or.inl h')
    · rcases mem_renderDecNN _ _ ch hc with h' | h'
      · exact Or.inl h'
      · exact Or.inr (Or.inl h')
  rcases hclass with h | h | h
  · exact digit_ne_comma_newline ch h
  · subst h
    exact ⟨by decide, by decide⟩
  · subst h
    exact ⟨by decide, by decide⟩

theorem mem_joinWith (c : Char) (parts : List (List Char)) :
    ∀ ch ∈ joinWith c parts, ch = c ∨ ∃ p ∈ parts, ch ∈ p := by
  induction parts with
  | nil => simp [joinWith]
  | cons x t ih =>
    cases t with
    | nil =>
      intro ch hc
      exact Or.inr ⟨x, List.mem_singleton_self x, hc⟩
    | cons y t' =>
      intro ch hc
      rw [joinWith] at hc
      rcases List.mem_append.mp hc with h | h
      · exact Or.inr ⟨x, List.mem_cons_self x _, h⟩
      · rcases List.mem_cons.mp h with h' | h'
        · exact Or.inl h'
        · rcases ih ch h' with h'' | ⟨p, hp, hchp⟩
          · exact Or.inl h''
          · exact Or.inr ⟨p, List.mem_cons_of_mem x hp, hchp⟩

theorem comma_not_mem_renderDec (d : DecNum) : ',' ∉ renderDec d :=
  fun h => (mem_renderDec d ',' h).1 rfl

theorem newline_not_mem_renderRow (r : List DecNum) : '\n' ∉ renderRow r := by
  intro h
  rcases mem_joinWith ',' (r.map renderDec) '\n' h with h' | ⟨p, hp, hnp⟩
  · exact absurd h' (by decide)
  · rcases List.mem_map.mp hp with ⟨d, _, rfl⟩
    exact (mem_renderDec d '\n' hnp).2 rfl

theorem splitOnChar_joinWith (c : Char) (parts : List (List Char))
    (hne : parts ≠ []) (hmem : ∀ p ∈ parts, c ∉ p) :
    splitOnChar c (joinWith c parts) = parts := by
  induction parts with
  | nil => exact absurd rfl hne
  | cons x t ih =>
    cases t with
    | nil =>
      rw [joinWith, splitOnChar_of_not_mem c x (hmem x (List.mem_singleton_self x))]
    | cons y t' =>
      rw [joinWith,
        splitOnChar_append_cons c x _ (hmem x (List.mem_cons_self x _)),
        ih (List.cons_ne_nil y t')
          (fun p hp => hmem p (List.mem_cons_of_mem x hp))]

theorem parseCells_map_renderDec (r : List DecNum) :
    parseCells (r.map renderDec) = some r := by
  induction r with
  | nil => rfl
  | cons d t ih =>
    rw [List.map_cons, parseCells, parseDec_renderDec d, ih]

theorem splitOnChar_renderRow (r : List DecNum) (h : r ≠ []) :
    splitOnChar ',' (renderRow r) = r.map renderDec := by
  rw [renderRow, splitOnChar_joinWith ',' (r.map renderDec)]
  · intro hnil
    exact h (List.map_eq_nil_iff.mp hnil)
  · intro p hp
    rcases List.mem_map.mp hp with ⟨d, _, rfl⟩
    exact comma_not_mem_renderDec d

theorem parseRow_renderRow (r : List DecNum) (h : r ≠ []) :
    parseRow (renderRow r) = some r := by
  rw [parseRow, splitOnChar_renderRow r h, parseCells_map_renderDec]

theorem splitOnChar_newline_toCsv (rows : List (List DecNum)) :
    splitOnChar '\n' (toCsv rows) = rows.map renderRow ++ [[]] := by
  induction rows with
  | nil => rfl
  | cons r t ih =>
    rw [toCsv, List.map_cons, List.flatten_cons, toCsvLine, List.append_assoc,
      List.singleton_append,
      splitOnChar_append_cons '\n' _ _ (newline_not_mem_renderRow r)]
    rw [toCsv] at ih
    rw [ih, List.map_cons, List.cons_append]

theorem parseCsv_toCsv (rows : List (List DecNum)) (h : ∀ r ∈ rows, r ≠ []) :
    parseCsv (toCsv rows) = some rows := by
  rw [parseCsv, splitOnChar_newline_toCsv, List.dropLast_concat]
  induction rows with
  | nil => rfl
  | cons r t ih =>
    rw [List.map_cons, parseRowsList,
      parseRow_renderRow r (h r (List.mem_cons_self r t)),
      ih (fun x hx => h x (List.mem_cons_of_mem r hx))]

/-! ### Partitioning

Modelled from the spec: the statistical split utility
(`sklearn.model_selection.train_test_split`) is an external collaborator
(spec §1, §4.1).  Its documented contract: for a fractional `test_size`
the held-out part has `ceil(test_size * n)` rows, the rows are permuted
by a pseudo-random shuffle fully determined by `random_state`, and the
two outputs are the two slices of the shuffled row list.  The
pseudo-random generator is modelled by a linear congruential step; every
claim below is insensitive to which seed-determined permutation is used. -/

/-- One step of the seed-determined pseudo-random stream. -/
def lcgNext (s : Nat) : Nat := (s * 1103515245 + 12345) % 2 ^ 31

/-- Selection shuffle: repeatedly extract the element at the
pseudo-random position determined by the evolving seed. -/
def shuffleGo (s fuel : Nat) {α : Type} (xs : List α) : List α :=
  match fuel with
  | 0 => xs
  | fuel + 1 =>
    if h : 0 < xs.length then
      xs.get ⟨s % xs.length, Nat.mod_lt _ h⟩ ::
        shuffleGo (lcgNext s) fuel (xs.eraseIdx (s % xs.length))
    else xs

/-- The seed-determined permutation of a row list. -/
def shuffleL (seed : Nat) {α : Type} (xs : List α) : List α :=
  shuffleGo seed xs.length xs

/-- Ceiling division. -/
def ceilDiv (a b : Nat) : Nat := (a + b - 1) / b

/-- `train_test_split(xs, test_size=num/den, random_state=seed)`:
shuffle, then return the complement slice (first component) and the
held-out slice of `ceil(num/den * n)` rows (second component). -/
def trainTestSplit (num den seed : Nat) {α : Type} (xs : List α) :
    List α × List α :=
  ((shuffleL seed xs).drop (ceilDiv (num * xs.length) den),
   (shuffleL seed xs).take (ceilDiv (num * xs.length) den))

/-- The notebook's two-stage split: hold out 0.2 of the rows, then split
the held-out part 0.5/0.5, both with the same seed.  Returns
`(train, validation, test)`. -/
def splitIris (seed : Nat) {α : Type} (rows : List α) :
    List α × List α × List α :=
  ((trainTestSplit 1 5 seed rows).1,
   (trainTestSplit 1 2 seed (trainTestSplit 1 5 seed rows).2).1,
   (trainTestSplit 1 2 seed (trainTestSplit 1 5 seed rows).2).2)

/-! ### Shuffle lemmas -/

theorem get_cons_eraseIdx_perm {α : Type} :
    ∀ (xs : List α) (i : Nat) (h : i < xs.length),
      (xs.get ⟨i, h⟩ :: xs.eraseIdx i).Perm xs := by
  intro xs
  induction xs with
  | nil => intro i h; simp at h
  | cons x t ih =>
    intro i h
    cases i with
    | zero => simp [List.eraseIdx]
    | succ i' =>
      have h' : i' < t.length := by simpa using h
      have : (x :: t).get ⟨i' + 1, h⟩ = t.get ⟨i', h'⟩ := rfl
      rw [this, List.eraseIdx_cons_succ]
      exact (List.Perm.swap x _ _).trans (List.Perm.cons x (ih i' h'))

theorem shuffleGo_perm {α : Type} (fuel : Nat) :
    ∀ (s : Nat) (xs : List α), (shuffleGo s fuel xs).Perm xs := by
  induction fuel with
  | zero => intro s xs; rfl
  | succ fuel ih =>
    intro s xs
    rw [shuffleGo]
    split
    · exact ((ih (lcgNext s) _).cons _).trans
        (get_cons_eraseIdx_perm xs _ _)
    · rfl

theorem shuffleL_perm {α : Type} (seed : Nat) (xs : List α) :
    (shuffleL seed xs).Perm xs :=
  shuffleGo_perm xs.length seed xs

theorem shuffleL_length {α : Type} (seed : Nat) (xs : List α) :
    (shuffleL seed xs).length = xs.length :=
  (shuffleL_perm seed xs).length_eq

/-! ### Split size lemmas -/

theorem trainTestSplit_length_fst {α : Type} (num den seed : Nat) (xs : List α) :
    (trainTestSplit num den seed xs).1.length =
      xs.length - ceilDiv (num * xs.length) den := by
  rw [trainTestSplit]
  simp [List.length_drop, shuffleL_length]

theorem trainTestSplit_length_snd {α : Type} (num den seed : Nat) (xs : List α) :
    (trainTestSplit num den seed xs).2.length =
      min (ceilDiv (num * xs.length) den) xs.length := by
  rw [trainTestSplit]
  simp [List.length_take, shuffleL_length]

/-! ### Split membership and disjointness lemmas -/

theorem trainTestSplit_fst_subset {α : Type} (num den seed : Nat) (xs : List α) :
    ∀ a ∈ (trainTestSplit num den seed xs).1, a ∈ xs := by
  intro a ha
  rw [trainTestSplit] at ha
  exact (shuffleL_perm seed xs).subset (List.drop_subset _ _ ha)

theorem trainTestSplit_snd_subset {α : Type} (num den seed : Nat) (xs : List α) :
    ∀ a ∈ (trainTestSplit num den seed xs).2, a ∈ xs := by
  intro a ha
  rw [trainTestSplit] at ha
  exact (shuffleL_perm seed xs).subset (List.take_subset _ _ ha)

theorem trainTestSplit_snd_nodup {α : Type} (num den seed : Nat) (xs : List α)
    (h : xs.Nodup) : (trainTestSplit num den seed xs).2.Nodup := by
  rw [trainTestSplit]
  exact ((List.take_sublist _ _).nodup ((shuffleL_perm seed xs).nodup_iff.mpr h))

theorem trainTestSplit_disjoint {α : Type} (num den seed : Nat) (xs : List α)
    (h : xs.Nodup) :
    ∀ a ∈ (trainTestSplit num den seed xs).1,
      a ∉ (trainTestSplit num den seed xs).2 := by
  intro a h1 h2
  rw [trainTestSplit] at h1 h2
  have hn : (shuffleL seed xs).Nodup := (shuffleL_perm seed xs).nodup_iff.mpr h
  exact List.disjoint_take_drop hn (le_refl _) h2 h1

theorem trainTestSplit_length_sum {α : Type} (num den seed : Nat) (xs : List α) :
    (trainTestSplit num den seed xs).1.length +
      (trainTestSplit num den seed xs).2.length = xs.length := by
  rw [trainTestSplit_length_fst, trainTestSplit_length_snd]
  omega

/-! ### The loaded table

`data = pd.DataFrame(np.c_[iris.data, iris.target], columns=...)`: each
row is the four-entry feature vector with the target label appended as
the last column. -/

/-- One table row: features with the label appended last. -/
def buildRow (features : List DecNum) (target : DecNum) : List DecNum :=
  features ++ [target]

/-- The loaded table: one row per (feature vector, label) pair. -/
def irisTable (featureRows : List (List DecNum)) (targets : List DecNum) :
    List (List DecNum) :=
  (featureRows.zip targets).map (fun p => buildRow p.1 p.2)

/-! ### Configuration records

Field-by-field embedding of `tuning_job_config` and
`training_job_definition` from the notebook, with the ambient values
(bucket, key path, training image, role) as parameters. -/

structure CategoricalParameterRange where
  Name : String
  Values : List String
deriving DecidableEq

structure ParameterRangeEntry where
  MaxValue : String
  MinValue : String
  Name : String
deriving DecidableEq

structure ParameterRanges where
  CategoricalParameterRanges : List CategoricalParameterRange
  ContinuousParameterRanges : List ParameterRangeEntry
  IntegerParameterRanges : List ParameterRangeEntry
deriving DecidableEq

structure ResourceLimits where
  MaxNumberOfTrainingJobs : Nat
  MaxParallelTrainingJobs : Nat
deriving DecidableEq

structure TuningObjective where
  MetricName : String
  «Type» : String
deriving DecidableEq

structure HyperParameterTuningJobConfig where
  ParameterRanges : ParameterRanges
  ResourceLimits : ResourceLimits
  Strategy : String
  HyperParameterTuningJobObjective : TuningObjective
deriving DecidableEq

/-- The notebook's `tuning_job_config` dictionary. -/
def tuning_job_config : HyperParameterTuningJobConfig :=
  { ParameterRanges :=
      { CategoricalParameterRanges := []
        ContinuousParameterRanges :=
          [{ MaxValue := "0.5", MinValue := "0.1", Name := "eta" }]
        IntegerParameterRanges :=
          [{ MaxValue := "5", MinValue := "2", Name := "max_depth" }] }
    ResourceLimits :=
      { MaxNumberOfTrainingJobs := 4
        MaxParallelTrainingJobs := 2 }
    Strategy := "Bayesian"
    HyperParameterTuningJobObjective :=
      { MetricName := "validation:rmse"
        «Type» := "Minimize" } }

structure S3DataSource where
  S3DataDistributionType : String
  S3DataType : String
  S3Uri : String
deriving DecidableEq

structure ChannelDataSource where
  S3DataSource : S3DataSource
deriving DecidableEq

structure Channel where
  ChannelName : String
  CompressionType : String
  ContentType : String
  DataSource : ChannelDataSource
deriving DecidableEq

structure OutputDataConfig where
  S3OutputPath : String
deriving DecidableEq

structure ResourceConfig where
  InstanceCount : Nat
  InstanceType : String
  VolumeSizeInGB : Nat
deriving DecidableEq

structure AlgorithmSpecification where
  TrainingImage : String
  TrainingInputMode : String
deriving DecidableEq

structure StoppingCondition where
  MaxRuntimeInSeconds : Nat
deriving DecidableEq

structure TrainingJobDefinition where
  AlgorithmSpecification : AlgorithmSpecification
  InputDataConfig : List Channel
  OutputDataConfig : OutputDataConfig
  ResourceConfig : ResourceConfig
  RoleArn : String
  StaticHyperParameters : List (String × String)
  StoppingCondition : StoppingCondition
deriving DecidableEq

/-- `f's3://{bucket}/{prefix}/train'`. -/
def s3_input_train (bucket pfx : String) : String :=
  "s3://" ++ bucket ++ "/" ++ pfx ++ "/train"

/-- `f's3://{bucket}/{prefix}/validation/'`. -/
def s3_input_validation (bucket pfx : String) : String :=
  "s3://" ++ bucket ++ "/" ++ pfx ++ "/validation/"

/-- `os.path.join(prefix, 'train/train.csv')`, the key the train CSV is
uploaded to. -/
def trainUploadKey (pfx : String) : String := pfx ++ "/" ++ "train/train.csv"

/-- `os.path.join(prefix, 'validation/validation.csv')`, the key the
validation CSV is uploaded to. -/
def validationUploadKey (pfx : String) : String :=
  pfx ++ "/" ++ "validation/validation.csv"

/-- The full object-storage URI of a bucket key. -/
def s3UriOf (bucket key : String) : String := "s3://" ++ bucket ++ "/" ++ key

/-- The notebook's `training_job_definition` dictionary. -/
def training_job_definition (trainingImage bucket pfx role : String) :
    TrainingJobDefinition :=
  { AlgorithmSpecification :=
      { TrainingImage := trainingImage
        TrainingInputMode := "File" }
    InputDataConfig :=
      [{ ChannelName := "train"
         CompressionType := "None"
         ContentType := "csv"
         DataSource :=
           { S3DataSource :=
               { S3DataDistributionType := "FullyReplicated"
                 S3DataType := "S3Prefix"
                 S3Uri := s3_input_train bucket pfx } } },
       { ChannelName := "validation"
         CompressionType := "None"
         ContentType := "csv"
         DataSource :=
           { S3DataSource :=
               { S3DataDistributionType := "FullyReplicated"
                 S3DataType := "S3Prefix"
                 S3Uri := s3_input_validation bucket pfx } } }]
    OutputDataConfig := { S3OutputPath := "s3://" ++ bucket ++ "/" ++ pfx ++ "/output" }
    ResourceConfig :=
      { InstanceCount := 1
        InstanceType := "ml.m5.large"
        VolumeSizeInGB := 5 }
    RoleArn := role
    StaticHyperParameters :=
      [("num_round", "50"), ("objective", "reg:squarederror"), ("verbosity", "2")]
    StoppingCondition := { MaxRuntimeInSeconds := 1800 } }

/-- The notebook's `tuning_job_name`. -/
def tuning_job_name : String := "IrisHPO"

structure CreateTuningJobRequest where
  HyperParameterTuningJobName : String
  HyperParameterTuningJobConfig : HyperParameterTuningJobConfig
  TrainingJobDefinition : TrainingJobDefinition
deriving DecidableEq

/-- The single `create_hyper_parameter_tuning_job` request the notebook
submits. -/
def createTuningJobRequest (trainingImage bucket pfx role : String) :
    CreateTuningJobRequest :=
  { HyperParameterTuningJobName := tuning_job_name
    HyperParameterTuningJobConfig := tuning_job_config
    TrainingJobDefinition := training_job_definition trainingImage bucket pfx role }

/-! ### Claims -/

/-- C1: For the fixed 150-row Iris dataset, with seed 42 and the
two-stage split (hold out 0.2, then split the held-out part 0.5/0.5),
the partitions have exactly 120 train rows, 15 validation rows and 15
test rows. -/
theorem split_sizes_iris {α : Type} (rows : List α) (h : rows.length = 150) :
    (splitIris 42 rows).1.length = 120 ∧
    (splitIris 42 rows).2.1.length = 15 ∧
    (splitIris 42 rows).2.2.length = 15 := by
  have e1 : (splitIris 42 rows).1 = (trainTestSplit 1 5 42 rows).1 := rfl
  have e2 : (splitIris 42 rows).2.1 =
      (trainTestSplit 1 2 42 (trainTestSplit 1 5 42 rows).2).1 := rfl
  have e3 : (splitIris 42 rows).2.2 =
      (trainTestSplit 1 2 42 (trainTestSplit 1 5 42 rows).2).2 := rfl
  have l1 := trainTestSplit_length_fst 1 5 42 rows
  have l2 := trainTestSplit_length_snd 1 5 42 rows
  have l3 := trainTestSplit_length_fst 1 2 42 (trainTestSplit 1 5 42 rows).2
  have l4 := trainTestSplit_length_snd 1 2 42 (trainTestSplit 1 5 42 rows).2
  simp only [ceilDiv] at l1 l2 l3 l4
  rw [e1, e2, e3]
  omega

set_option maxRecDepth 10000 in
/-- Witness for C1 at the concrete 150-row input `List.range 150`. -/
theorem split_sizes_iris_witness :
    (List.range 150).length = 150 ∧
    ((splitIris 42 (List.range 150)).1.length = 120 ∧
     (splitIris 42 (List.range 150)).2.1.length = 15 ∧
     (splitIris 42 (List.range 150)).2.2.length = 15) :=
  ⟨by decide, split_sizes_iris (List.range 150) (by decide)⟩

set_option maxRecDepth 10000 in
/-- C2 counterexample: the split is not 60/20/20.  On the 150-row input
the train partition has 120 rows, not about `0.6 * 150 = 90`, and the
validation and test partitions have 15 rows each, not `0.2 * 150 = 30`. -/
theorem split_not_60_20_20 :
    (splitIris 42 (List.range 150)).1.length ≠ 90 ∧
    (splitIris 42 (List.range 150)).2.1.length ≠ 30 ∧
    (splitIris 42 (List.range 150)).2.2.length ≠ 30 ∧
    (splitIris 42 (List.range 150)).1.length = 120 := by decide

/-- C2 amended: the partitioning step splits the dataset 80/10/10 up to
rounding: for every input row set of size `N`, train holds
`N - ceil(N/5)` rows, validation holds `ceil(N/5) - ceil(ceil(N/5)/2)`
rows and test holds `ceil(ceil(N/5)/2)` rows. -/
theorem split_ratios_80_10_10 {α : Type} (rows : List α) :
    (splitIris 42 rows).1.length = rows.length - ceilDiv rows.length 5 ∧
    (splitIris 42 rows).2.1.length =
      ceilDiv rows.length 5 - ceilDiv (ceilDiv rows.length 5) 2 ∧
    (splitIris 42 rows).2.2.length = ceilDiv (ceilDiv rows.length 5) 2 := by
  have e1 : (splitIris 42 rows).1 = (trainTestSplit 1 5 42 rows).1 := rfl
  have e2 : (splitIris 42 rows).2.1 =
      (trainTestSplit 1 2 42 (trainTestSplit 1 5 42 rows).2).1 := rfl
  have e3 : (splitIris 42 rows).2.2 =
      (trainTestSplit 1 2 42 (trainTestSplit 1 5 42 rows).2).2 := rfl
  have l1 := trainTestSplit_length_fst 1 5 42 rows
  have l2 := trainTestSplit_length_snd 1 5 42 rows
  have l3 := trainTestSplit_length_fst 1 2 42 (trainTestSplit 1 5 42 rows).2
  have l4 := trainTestSplit_length_snd 1 2 42 (trainTestSplit 1 5 42 rows).2
  simp only [ceilDiv] at l1 l2 l3 l4 ⊢
  rw [e1, e2, e3]
  omega

/-- C3: the three partitions are pairwise disjoint (for distinct input
rows) and their sizes sum to the original row count. -/
theorem split_disjoint_and_sum {α : Type} (rows : List α) (h : rows.Nodup) :
    (∀ a ∈ (splitIris 42 rows).1, a ∉ (splitIris 42 rows).2.1) ∧
    (∀ a ∈ (splitIris 42 rows).1, a ∉ (splitIris 42 rows).2.2) ∧
    (∀ a ∈ (splitIris 42 rows).2.1, a ∉ (splitIris 42 rows).2.2) ∧
    (splitIris 42 rows).1.length + (splitIris 42 rows).2.1.length +
      (splitIris 42 rows).2.2.length = rows.length := by
  have e1 : (splitIris 42 rows).1 = (trainTestSplit 1 5 42 rows).1 := rfl
  have e2 : (splitIris 42 rows).2.1 =
      (trainTestSplit 1 2 42 (trainTestSplit 1 5 42 rows).2).1 := rfl
  have e3 : (splitIris 42 rows).2.2 =
      (trainTestSplit 1 2 42 (trainTestSplit 1 5 42 rows).2).2 := rfl
  have hHn : (trainTestSplit 1 5 42 rows).2.Nodup :=
    trainTestSplit_snd_nodup 1 5 42 rows h
  refine ⟨?_, ?_, ?_, ?_⟩
  · intro a ha hv
    rw [e1] at ha
    rw [e2] at hv
    exact trainTestSplit_disjoint 1 5 42 rows h a ha
      (trainTestSplit_fst_subset 1 2 42 _ a hv)
  · intro a ha ht
    rw [e1] at ha
    rw [e3] at ht
    exact trainTestSplit_disjoint 1 5 42 rows h a ha
      (trainTestSplit_snd_subset 1 2 42 _ a ht)
  · intro a hv ht
    rw [e2] at hv
    rw [e3] at ht
    exact trainTestSplit_disjoint 1 2 42 _ hHn a hv ht
  · have s1 := trainTestSplit_length_sum 1 5 42 rows
    have s2 := trainTestSplit_length_sum 1 2 42 (trainTestSplit 1 5 42 rows).2
    rw [e1, e2, e3]
    omega

/-- Witness for C3 at the concrete distinct-row input `List.range 10`. -/
theorem split_disjoint_and_sum_witness :
    (List.range 10).Nodup ∧
    ((∀ a ∈ (splitIris 42 (List.range 10)).1,
        a ∉ (splitIris 42 (List.range 10)).2.1) ∧
     (∀ a ∈ (splitIris 42 (List.range 10)).1,
        a ∉ (splitIris 42 (List.range 10)).2.2) ∧
     (∀ a ∈ (splitIris 42 (List.range 10)).2.1,
        a ∉ (splitIris 42 (List.range 10)).2.2) ∧
     (splitIris 42 (List.range 10)).1.length +
       (splitIris 42 (List.range 10)).2.1.length +
       (splitIris 42 (List.range 10)).2.2.length = (List.range 10).length) :=
  ⟨by decide, split_disjoint_and_sum (List.range 10) (by decide)⟩

/-- C4: partitioning is deterministic — the same seed and the same input
rows in the same order yield identical train, validation and test row
lists. -/
theorem split_deterministic {α : Type} (seed1 seed2 : Nat)
    (rows1 rows2 : List α) (hs : seed1 = seed2) (hr : rows1 = rows2) :
    splitIris seed1 rows1 = splitIris seed2 rows2 := by
  rw [hs, hr]

/-- Witness for C4 at seed 42 and the concrete input `List.range 5`. -/
theorem split_deterministic_witness :
    (42 : Nat) = 42 ∧ List.range 5 = List.range 5 ∧
    splitIris 42 (List.range 5) = splitIris 42 (List.range 5) :=
  ⟨rfl, rfl, split_deterministic 42 42 (List.range 5) (List.range 5) rfl rfl⟩

/-- C5: the search-space record has exactly one continuous entry, bounds
[0.1, 0.5], named "eta"; exactly one integer entry, bounds [2, 5], named
"max_depth"; an empty categorical list; and no name occurs in two
kind-lists. -/
theorem search_space_entries :
    tuning_job_config.ParameterRanges.ContinuousParameterRanges =
      [{ MaxValue := "0.5", MinValue := "0.1", Name := "eta" }] ∧
    tuning_job_config.ParameterRanges.IntegerParameterRanges =
      [{ MaxValue := "5", MinValue := "2", Name := "max_depth" }] ∧
    tuning_job_config.ParameterRanges.CategoricalParameterRanges = [] ∧
    (∀ e1 ∈ tuning_job_config.ParameterRanges.ContinuousParameterRanges,
      ∀ e2 ∈ tuning_job_config.ParameterRanges.IntegerParameterRanges,
        e1.Name ≠ e2.Name) ∧
    (∀ e1 ∈ tuning_job_config.ParameterRanges.ContinuousParameterRanges,
      ∀ e2 ∈ tuning_job_config.ParameterRanges.CategoricalParameterRanges,
        e1.Name ≠ e2.Name) ∧
    (∀ e1 ∈ tuning_job_config.ParameterRanges.IntegerParameterRanges,
      ∀ e2 ∈ tuning_job_config.ParameterRanges.CategoricalParameterRanges,
        e1.Name ≠ e2.Name) := by
  refine ⟨rfl, rfl, rfl, ?_, ?_, ?_⟩ <;> decide

/-- C6: the resource-limit record sets 2 concurrent trials and 4 total
trials, and concurrency ≤ total. -/
theorem resource_limits_ok :
    tuning_job_config.ResourceLimits.MaxParallelTrainingJobs = 2 ∧
    tuning_job_config.ResourceLimits.MaxNumberOfTrainingJobs = 4 ∧
    tuning_job_config.ResourceLimits.MaxParallelTrainingJobs ≤
      tuning_job_config.ResourceLimits.MaxNumberOfTrainingJobs := by
  decide

/-- C7: the objective minimizes a validation error metric; the job
definition has exactly two input channels whose source URIs are the
remote prefixes the train and validation CSVs were uploaded under (each
uploaded object URI extends its channel URI), a 1800-second runtime
bound, and a single-instance compute shape. -/
theorem job_definition_ok (trainingImage bucket pfx role : String) :
    tuning_job_config.HyperParameterTuningJobObjective =
      { MetricName := "validation:rmse", «Type» := "Minimize" } ∧
    (training_job_definition trainingImage bucket pfx role).InputDataConfig.length = 2 ∧
    ((training_job_definition trainingImage bucket pfx role).InputDataConfig.map
        (fun ch => ch.DataSource.S3DataSource.S3Uri)) =
      [s3_input_train bucket pfx, s3_input_validation bucket pfx] ∧
    s3UriOf bucket (trainUploadKey pfx) =
      s3_input_train bucket pfx ++ "/train.csv" ∧
    s3UriOf bucket (validationUploadKey pfx) =
      s3_input_validation bucket pfx ++ "validation.csv" ∧
    (training_job_definition trainingImage bucket pfx role).StoppingCondition.MaxRuntimeInSeconds = 1800 ∧
    (training_job_definition trainingImage bucket pfx role).ResourceConfig.InstanceCount = 1 := by
  refine ⟨rfl, rfl, rfl, ?_, ?_, rfl, rfl⟩
  · rw [s3UriOf, trainUploadKey, s3_input_train]
    simp [String.append_assoc]
  · rw [s3UriOf, validationUploadKey, s3_input_validation]
    simp [String.append_assoc]

/-- C8: export round-trips — the serialized text has one line per row
(no header line), each line has one comma-separated field per cell (no
index column), and parsing the text back yields exactly the in-memory
rows. -/
theorem csv_export_roundtrip (rows : List (List DecNum))
    (h : ∀ r ∈ rows, r ≠ []) :
    ((splitOnChar '\n' (toCsv rows)).dropLast).length = rows.length ∧
    (∀ r ∈ rows, splitOnChar ',' (renderRow r) = r.map renderDec) ∧
    parseCsv (toCsv rows) = some rows := by
  refine ⟨?_, ?_, parseCsv_toCsv rows h⟩
  · rw [splitOnChar_newline_toCsv, List.dropLast_concat, List.length_map]
  · exact fun r hr => splitOnChar_renderRow r (h r hr)

/-- Witness for C8 at a concrete one-row table (the first Iris row). -/
theorem csv_export_roundtrip_witness :
    (∀ r ∈ [[DecNum.mk 51 1, DecNum.mk 35 1, DecNum.mk 14 1,
              DecNum.mk 2 1, DecNum.mk 0 0]], r ≠ []) ∧
    parseCsv (toCsv [[DecNum.mk 51 1, DecNum.mk 35 1, DecNum.mk 14 1,
                      DecNum.mk 2 1, DecNum.mk 0 0]]) =
      some [[DecNum.mk 51 1, DecNum.mk 35 1, DecNum.mk 14 1,
             DecNum.mk 2 1, DecNum.mk 0 0]] :=
  ⟨by decide, (csv_export_roundtrip _ (by decide)).2.2⟩

/-- C9: every row of the exported train and validation partitions has
exactly five comma-separated fields — the four feature values in dataset
order followed by the class label as the last field. -/
theorem exported_rows_shape (featureRows : List (List DecNum))
    (targets : List DecNum) (seed : Nat)
    (h4 : ∀ f ∈ featureRows, f.length = 4) :
    ∀ r, (r ∈ (splitIris seed (irisTable featureRows targets)).1 ∨
          r ∈ (splitIris seed (irisTable featureRows targets)).2.1) →
      ∃ f t, (f, t) ∈ featureRows.zip targets ∧ f.length = 4 ∧
        r = f ++ [t] ∧
        splitOnChar ',' (renderRow r) = f.map renderDec ++ [renderDec t] ∧
        (splitOnChar ',' (renderRow r)).length = 5 := by
  intro r hr
  have htab : r ∈ irisTable featureRows targets := by
    rcases hr with hr | hr
    · exact trainTestSplit_fst_subset 1 5 seed _ r hr
    · exact trainTestSplit_snd_subset 1 5 seed _ r
        (trainTestSplit_fst_subset 1 2 seed _ r hr)
  rw [irisTable] at htab
  rcases List.mem_map.mp htab with ⟨⟨f, t⟩, hmem, hbuild⟩
  have hf : f ∈ featureRows := (List.of_mem_zip hmem).1
  have hlen : f.length = 4 := h4 f hf
  have hrft : r = f ++ [t] := hbuild.symm
  have hne : r ≠ [] := by
    rw [hrft]
    simp
  have hsplit : splitOnChar ',' (renderRow r) = f.map renderDec ++ [renderDec t] := by
    rw [splitOnChar_renderRow r hne, hrft, List.map_append, List.map_singleton]
  refine ⟨f, t, hmem, hlen, hrft, hsplit, ?_⟩
  rw [hsplit, List.length_append, List.length_map, hlen]
  rfl

/-- Witness for C9 at a concrete one-row table. -/
theorem exported_rows_shape_witness :
    (∀ f ∈ [[DecNum.mk 51 1, DecNum.mk 35 1, DecNum.mk 14 1, DecNum.mk 2 1]],
        f.length = 4) ∧
    (∀ r, (r ∈ (splitIris 42 (irisTable
              [[DecNum.mk 51 1, DecNum.mk 35 1, DecNum.mk 14 1, DecNum.mk 2 1]]
              [DecNum.mk 0 0])).1 ∨
          r ∈ (splitIris 42 (irisTable
              [[DecNum.mk 51 1, DecNum.mk 35 1, DecNum.mk 14 1, DecNum.mk 2 1]]
              [DecNum.mk 0 0])).2.1) →
      ∃ f t, (f, t) ∈
          [[DecNum.mk 51 1, DecNum.mk 35 1, DecNum.mk 14 1, DecNum.mk 2 1]].zip
            [DecNum.mk 0 0] ∧ f.length = 4 ∧
        r = f ++ [t] ∧
        splitOnChar ',' (renderRow r) = f.map renderDec ++ [renderDec t] ∧
        (splitOnChar ',' (renderRow r)).length = 5) :=
  ⟨by decide, exported_rows_shape _ _ 42 (by decide)⟩

/-- C10: the job name passed to the submission call is the fixed string
"IrisHPO"; it does not depend on any run-varying input, so any two
executions submit the identical name. -/
theorem job_name_constant (i1 b1 p1 r1 i2 b2 p2 r2 : String) :
    (createTuningJobRequest i1 b1 p1 r1).HyperParameterTuningJobName = "IrisHPO" ∧
    (createTuningJobRequest i1 b1 p1 r1).HyperParameterTuningJobName =
      (createTuningJobRequest i2 b2 p2 r2).HyperParameterTuningJobName :=
  ⟨rfl, rfl⟩

end IrisHpo
